import Mathlib

/-!
Shallow embedding of `risk.py` (the `Board` and `Player` classes) and
verification of the specification's claims about them.

Modelling conventions:
* A territory record `(territory_id, owner, army_count)` becomes
  `Territory := Nat × Int × Int` (Python ints for owner and armies).
* The external `definitions` module (the static map service) is not part of
  the repository source; it is modelled as an abstract `Definitions`
  structure whose fields stand for `definitions.territory_neighbors`,
  `definitions.continent_territories` and `definitions.continent_bonuses`.
* Python `assert` failures and out-of-range list indexing are modelled by
  returning `none`; a state-changing method that fails returns `none`
  without producing an updated board, matching the fact that the Python
  assert fires before any assignment to `self.data`.
* `random.shuffle` is modelled by quantifying over an arbitrary permutation
  of the pre-shuffle allocation list.
-/

/-- A territory record `(territory_id, owner_player_id, army_count)`,
as stored in `Board.data` in `risk.py`. -/
abbrev Territory : Type := Nat × Int × Int

/-- Modelled from the spec: the external `definitions` module (the
read-only MapService) is not part of the source; its tables are kept
abstract — `territory_neighbors` (adjacency lists), `continent_territories`
(continent membership) and `continent_bonuses` (an association list,
standing for the Python dict's `.items()`). -/
structure Definitions where
  territory_neighbors : Nat → List Nat
  continent_territories : Nat → List Nat
  continent_bonuses : List (Nat × Int)

/-- The `Board` class: `self.data`, a list of territory records. -/
structure Board where
  data : List Territory
deriving DecidableEq

/-- The pre-shuffle allocation list of `Board.create`:
`(range(n_players)*42)[0:42]` — 42 concatenated copies of
`[0, ..., n_players-1]`, truncated to the first 42 entries. -/
def baseAllocation (n_players : Nat) : List Int :=
  ((List.replicate 42 ((List.range n_players).map (fun i => Int.ofNat i))).flatten).take 42

/-- Board.create after the shuffle: given the (already shuffled) allocation
list, build `[(tid, pid, 1) for tid, pid in enumerate(allocation)]`. -/
def Board.create (allocation : List Int) : Board :=
  ⟨allocation.enum.map (fun p => (p.1, p.2, 1))⟩

/-- Board.owner: `self.data[territory_id][1]`. Returns `none` where Python
raises `IndexError` (non-negative out-of-range index). -/
def Board.owner (b : Board) (territory_id : Nat) : Option Int :=
  (b.data[territory_id]?).map (fun t => t.2.1)

/-- Board.armies: `self.data[territory_id][2]`. Returns `none` where Python
raises `IndexError`. -/
def Board.armies (b : Board) (territory_id : Nat) : Option Int :=
  (b.data[territory_id]?).map (fun t => t.2.2)

/-- Total variant of `Board.owner` with a junk default, used only where the
Python code reads `self.owner(tid)` at an index that is in range in every
state the theorems consider. -/
def Board.ownerD (b : Board) (territory_id : Nat) : Int :=
  ((b.data[territory_id]?).map (fun t => t.2.1)).getD 0

/-- Board.set_owner:
`self.data[territory_id] = (territory_id, player_id, self.armies(territory_id))`.
Fails (`none`) only when the index is out of range. -/
def Board.set_owner (b : Board) (territory_id : Nat) (player_id : Int) :
    Option Board :=
  (b.armies territory_id).map
    (fun a => ⟨b.data.set territory_id (territory_id, player_id, a)⟩)

/-- Board.set_armies: `assert n > 0`, then
`self.data[territory_id] = (territory_id, self.owner(territory_id), n)`.
The assert is checked before any lookup or assignment. -/
def Board.set_armies (b : Board) (territory_id : Nat) (n : Int) :
    Option Board :=
  if 0 < n then
    (b.owner territory_id).map
      (fun o => ⟨b.data.set territory_id (territory_id, o, n)⟩)
  else none

/-- Board.add_armies:
`self.set_armies(territory_id, self.armies(territory_id) + n)`. -/
def Board.add_armies (b : Board) (territory_id : Nat) (n : Int) :
    Option Board :=
  (b.armies territory_id).bind (fun a => b.set_armies territory_id (a + n))

/-- Board.n_armies: `sum(arm for tid, pid, arm in self.data if pid == player_id)`. -/
def Board.n_armies (b : Board) (player_id : Int) : Int :=
  ((b.data.filter (fun t => t.2.1 == player_id)).map (fun t => t.2.2)).sum

/-- Board.n_territories: `len([pid for tid, pid, arm in self.data if pid == player_id])`. -/
def Board.n_territories (b : Board) (player_id : Int) : Nat :=
  (b.data.filter (fun t => t.2.1 == player_id)).length

/-- Board.offensive: territories of the player with more than one army. -/
def Board.offensive (b : Board) (player_id : Int) : List Territory :=
  b.data.filter (fun t => t.2.1 == player_id && decide (1 < t.2.2))

/-- Board.neighbors: records whose id is in the static neighbor list. -/
def Board.neighbors (defs : Definitions) (b : Board) (territory_id : Nat) :
    List Territory :=
  let neighbor_ids := defs.territory_neighbors territory_id
  b.data.filter (fun t => decide (t.1 ∈ neighbor_ids))

/-- Board.hostile_neighbors: `player_id = self.owner(territory_id)`, then
records whose owner differs from `player_id` and whose id is a neighbor. -/
def Board.hostile_neighbors (defs : Definitions) (b : Board)
    (territory_id : Nat) : List Territory :=
  let player_id := b.ownerD territory_id
  let neighbor_ids := defs.territory_neighbors territory_id
  b.data.filter (fun t => decide (t.2.1 ≠ player_id ∧ t.1 ∈ neighbor_ids))

/-- Board.possible_attacks: for each offensive territory, one tuple
`(fr_tid, fr_arm, to_tid, to_pid, to_arm)` per hostile neighbor. -/
def Board.possible_attacks (defs : Definitions) (b : Board)
    (player_id : Int) : List (Nat × Int × Nat × Int × Int) :=
  (b.offensive player_id).flatMap (fun f =>
    (b.hostile_neighbors defs f.1).map
      (fun t => (f.1, f.2.2, t.1, t.2.1, t.2.2)))

/-- Board.continent: records whose id belongs to the continent. -/
def Board.continent (defs : Definitions) (b : Board) (continent_id : Nat) :
    List Territory :=
  b.data.filter (fun t => decide (t.1 ∈ defs.continent_territories continent_id))

/-- Board.continent_owner: the unique element of
`set([pid for (tid, pid, arm) in self.continent(continent_id)])` when that
set has exactly one element, else `None`. The Python set is modelled by
`List.dedup`. -/
def Board.continent_owner (defs : Definitions) (b : Board)
    (continent_id : Nat) : Option Int :=
  match ((b.continent defs continent_id).map (fun t => t.2.1)).dedup with
  | [p] => some p
  | _ => none

/-- Board.n_continents: continents (ids 0..5) whose owner is the player. -/
def Board.n_continents (defs : Definitions) (b : Board) (player_id : Int) :
    Nat :=
  ((List.range 6).filter
    (fun cid => b.continent_owner defs cid == some player_id)).length

/-- Board.reinforcements: `max(3, int(n_territories/3))` plus the sum of
the bonuses of the continents whose `continent_owner` is the player,
accumulated by folding over `definitions.continent_bonuses.items()`. -/
def Board.reinforcements (defs : Definitions) (b : Board)
    (player_id : Int) : Int :=
  let base : Int := (max 3 (b.n_territories player_id / 3) : Nat)
  let bonus : Int := defs.continent_bonuses.foldl
    (fun acc cb =>
      if b.continent_owner defs cb.1 = some player_id then acc + cb.2
      else acc) 0
  base + bonus

/-- The `Player` class: a player id and a display name. -/
structure Player where
  pid : Int
  name : String
deriving DecidableEq

/-- Player.__init__: `assert pid in range(6)` then store the fields; the
failed assert is modelled as `none`. -/
def Player.create (pid : Int) (name : String) : Option Player :=
  if 0 ≤ pid ∧ pid < 6 then some ⟨pid, name⟩ else none

/-- A board indexes itself: the record at position `i` of `data` carries
`i` as its territory id. -/
def Board.selfIndexed (b : Board) : Prop :=
  ∀ i : Fin b.data.length, (b.data.get i).1 = i

/-- Every record of the board has at least one army. -/
def Board.armiesPos (b : Board) : Prop :=
  ∀ t ∈ b.data, 1 ≤ t.2.2

/-! Helper lemmas about `Board.create` and `baseAllocation`. -/

lemma create_length (alloc : List Int) :
    (Board.create alloc).data.length = alloc.length := by
  simp [Board.create]

lemma create_map_fst (alloc : List Int) :
    (Board.create alloc).data.map (fun t => t.1) = List.range alloc.length := by
  show ((alloc.enum).map (fun p => (p.1, p.2, 1))).map (fun t => t.1) = _
  rw [List.map_map, List.range_eq_range']
  exact List.enumFrom_map_fst 0 alloc

lemma create_map_owner (alloc : List Int) :
    (Board.create alloc).data.map (fun t => t.2.1) = alloc := by
  show ((alloc.enum).map (fun p => (p.1, p.2, 1))).map (fun t => t.2.1) = _
  rw [List.map_map]
  exact List.enumFrom_map_snd 0 alloc

lemma create_getElem? (alloc : List Int) (i : Nat) :
    (Board.create alloc).data[i]? = alloc[i]?.map (fun a => (i, a, 1)) := by
  show ((alloc.enum).map (fun p => (p.1, p.2, 1)))[i]? = _
  rw [List.getElem?_map]
  show ((alloc.enumFrom 0)[i]?).map _ = _
  rw [List.getElem?_enumFrom]
  cases alloc[i]? <;> simp

lemma baseAllocation_length {n : Nat} (hn : 1 ≤ n) :
    (baseAllocation n).length = 42 := by
  unfold baseAllocation
  rw [List.length_take, List.length_flatten, List.map_replicate]
  simp only [List.length_map, List.length_range, List.sum_replicate, smul_eq_mul]
  omega

lemma mem_baseAllocation {n : Nat} {x : Int} (hx : x ∈ baseAllocation n) :
    0 ≤ x ∧ x < n := by
  unfold baseAllocation at hx
  have hx2 := List.mem_of_mem_take hx
  rw [List.mem_flatten] at hx2
  obtain ⟨l, hl, hxl⟩ := hx2
  rw [List.eq_of_mem_replicate hl] at hxl
  obtain ⟨i, hi, rfl⟩ := List.mem_map.1 hxl
  refine ⟨Int.natCast_nonneg i, ?_⟩
  exact Int.ofNat_lt.2 (List.mem_range.1 hi)

lemma n_territories_eq_count (b : Board) (p : Int) :
    b.n_territories p = (b.data.map (fun t => t.2.1)).count p := by
  unfold Board.n_territories
  rw [List.count_eq_countP, List.countP_map, List.countP_eq_length_filter]
  rfl

/-- C1: for any player count in [1,6] and any permutation the shuffle may
produce, `Board.create` yields 42 records, territory ids 0..41 in order
(each exactly once), every army count 1, every owner in `range(n_players)`,
and the multiset of owners equal to the truncated cyclic allocation list. -/
theorem create_allocation_spec (n : Nat) (hn : 1 ≤ n ∧ n ≤ 6)
    (alloc : List Int) (hperm : alloc.Perm (baseAllocation n)) :
    (Board.create alloc).data.length = 42 ∧
    (Board.create alloc).data.map (fun t => t.1) = List.range 42 ∧
    (∀ t ∈ (Board.create alloc).data, t.2.2 = 1) ∧
    (∀ t ∈ (Board.create alloc).data, 0 ≤ t.2.1 ∧ (t.2.1 : Int) < n) ∧
    ((Board.create alloc).data.map (fun t => t.2.1)).Perm (baseAllocation n) := by
  have hlen : alloc.length = 42 := by
    rw [hperm.length_eq, baseAllocation_length hn.1]
  refine ⟨by rw [create_length, hlen], by rw [create_map_fst, hlen], ?_, ?_, ?_⟩
  · intro t ht
    simp only [Board.create, List.mem_map] at ht
    obtain ⟨p, _, rfl⟩ := ht
    rfl
  · intro t ht
    have : t.2.1 ∈ (Board.create alloc).data.map (fun t => t.2.1) :=
      List.mem_map_of_mem _ ht
    rw [create_map_owner] at this
    exact mem_baseAllocation (hperm.mem_iff.1 this)
  · rw [create_map_owner]; exact hperm

/-- Closed witness for `create_allocation_spec` at `n = 3` with the
identity permutation. -/
theorem create_allocation_spec_witness :
    (Board.create (baseAllocation 3)).data.length = 42 ∧
    (Board.create (baseAllocation 3)).data.map (fun t => t.1) = List.range 42 ∧
    (∀ t ∈ (Board.create (baseAllocation 3)).data, t.2.2 = 1) ∧
    (∀ t ∈ (Board.create (baseAllocation 3)).data,
      0 ≤ t.2.1 ∧ (t.2.1 : Int) < 3) ∧
    ((Board.create (baseAllocation 3)).data.map (fun t => t.2.1)).Perm
      (baseAllocation 3) :=
  create_allocation_spec 3 (by decide) (baseAllocation 3) (List.Perm.refl _)

/-- C7: for any player count in [1,6] and any permutation the shuffle may
produce, the per-player territory counts after creation are each
`42 / n_players` or `42 / n_players + 1`, and differ pairwise by at most 1. -/
theorem create_distribution_fair (n : Nat) (hn : 1 ≤ n ∧ n ≤ 6)
    (alloc : List Int) (hperm : alloc.Perm (baseAllocation n)) :
    ∀ p q : Int, 0 ≤ p → p < n → 0 ≤ q → q < n →
      ((Board.create alloc).n_territories p = 42 / n ∨
        (Board.create alloc).n_territories p = 42 / n + 1) ∧
      (Board.create alloc).n_territories p ≤
        (Board.create alloc).n_territories q + 1 := by
  intro p q hp0 hpn hq0 hqn
  have hc : ∀ r : Int,
      (Board.create alloc).n_territories r = (baseAllocation n).count r := by
    intro r
    rw [n_territories_eq_count, create_map_owner, hperm.count_eq]
  rw [hc p, hc q]
  obtain ⟨h1, h6⟩ := hn
  interval_cases n <;> push_cast at hpn hqn <;>
    interval_cases p <;> interval_cases q <;> exact ⟨by decide, by decide⟩

/-- Closed witness for `create_distribution_fair` at `n = 4` with the
identity permutation, at players 0 and 3. -/
theorem create_distribution_fair_witness :
    ((Board.create (baseAllocation 4)).n_territories 0 = 42 / 4 ∨
      (Board.create (baseAllocation 4)).n_territories 0 = 42 / 4 + 1) ∧
    (Board.create (baseAllocation 4)).n_territories 0 ≤
      (Board.create (baseAllocation 4)).n_territories 3 + 1 :=
  create_distribution_fair 4 (by decide) (baseAllocation 4) (List.Perm.refl _)
    0 3 (by decide) (by decide) (by decide) (by decide)

/-! Helper lemmas characterising the successful runs of the mutators. -/

lemma armies_eq_some_iff {b : Board} {tid : Nat} {a : Int} :
    b.armies tid = some a ↔ ∃ t, b.data[tid]? = some t ∧ t.2.2 = a := by
  simp [Board.armies, Option.map_eq_some']

lemma set_owner_eq_some_iff {b : Board} {tid : Nat} {pid : Int} {b' : Board} :
    b.set_owner tid pid = some b' ↔
      ∃ t, b.data[tid]? = some t ∧
        b' = Board.mk (b.data.set tid (tid, pid, t.2.2)) := by
  unfold Board.set_owner Board.armies
  cases h : b.data[tid]? with
  | none => simp
  | some t => simp [eq_comm]

lemma set_armies_eq_some_iff {b : Board} {tid : Nat} {n : Int} {b' : Board} :
    b.set_armies tid n = some b' ↔
      0 < n ∧ ∃ t, b.data[tid]? = some t ∧
        b' = Board.mk (b.data.set tid (tid, t.2.1, n)) := by
  unfold Board.set_armies Board.owner
  split
  · cases h : b.data[tid]? with
    | none => simp
    | some t => simp [eq_comm, *]
  · simp [*]

lemma add_armies_eq_some_iff {b : Board} {tid : Nat} {n : Int} {b' : Board} :
    b.add_armies tid n = some b' ↔
      ∃ t, b.data[tid]? = some t ∧ 0 < t.2.2 + n ∧
        b' = Board.mk (b.data.set tid (tid, t.2.1, t.2.2 + n)) := by
  unfold Board.add_armies Board.armies
  cases h : b.data[tid]? with
  | none => simp
  | some t =>
    show b.set_armies tid (t.2.2 + n) = some b' ↔ _
    rw [set_armies_eq_some_iff]
    simp only [h, Option.some.injEq]
    constructor
    · rintro ⟨hpos, t', rfl, rfl⟩
      exact ⟨t, rfl, hpos, rfl⟩
    · rintro ⟨t', rfl, hpos, rfl⟩
      exact ⟨hpos, t, rfl, rfl⟩

lemma set_armies_eq_none_of_nonpos {b : Board} {tid : Nat} {n : Int}
    (hn : n ≤ 0) : b.set_armies tid n = none := by
  unfold Board.set_armies
  rw [if_neg (not_lt.2 hn)]

/-- C2: for an in-range territory, `set_armies` with a non-positive target
fails and `add_armies` fails whenever the resulting total would be
non-positive — in both cases no updated board is produced, so the stored
state is unchanged — while a positive target makes both calls succeed and
store exactly that value. -/
theorem set_add_armies_contract (b : Board) (tid : Nat)
    (h : tid < b.data.length) (n : Int) :
    (n ≤ 0 → b.set_armies tid n = none) ∧
    (0 < n → ∃ b', b.set_armies tid n = some b' ∧ b'.armies tid = some n) ∧
    (∀ a : Int, b.armies tid = some a →
      (a + n ≤ 0 → b.add_armies tid n = none) ∧
      (0 < a + n → ∃ b', b.add_armies tid n = some b' ∧
        b'.armies tid = some (a + n))) := by
  have hget : b.data[tid]? = some (b.data.get ⟨tid, h⟩) := by
    rw [List.getElem?_eq_getElem h]
    rfl
  refine ⟨fun hn => set_armies_eq_none_of_nonpos hn, fun hpos => ?_, ?_⟩
  · refine ⟨_, set_armies_eq_some_iff.2 ⟨hpos, _, hget, rfl⟩, ?_⟩
    unfold Board.armies
    rw [List.getElem?_set_self (by simpa using h)]
    rfl
  · intro a ha
    obtain ⟨t, ht, hta⟩ := armies_eq_some_iff.1 ha
    constructor
    · intro hnp
      unfold Board.add_armies
      rw [ha]
      exact set_armies_eq_none_of_nonpos hnp
    · intro hpos
      refine ⟨_, add_armies_eq_some_iff.2 ⟨t, ht, by rw [hta]; exact hpos, rfl⟩, ?_⟩
      unfold Board.armies
      rw [List.getElem?_set_self (by simpa using h)]
      simp [hta]

/-- Closed witness for `set_add_armies_contract` on a two-territory board. -/
theorem set_add_armies_contract_witness :
    ((-1 : Int) ≤ 0 →
      (Board.mk [(0, 0, 1), (1, 1, 2)]).set_armies 0 (-1) = none) ∧
    ((0 : Int) < -1 → ∃ b',
      (Board.mk [(0, 0, 1), (1, 1, 2)]).set_armies 0 (-1) = some b' ∧
        b'.armies 0 = some (-1)) ∧
    (∀ a : Int, (Board.mk [(0, 0, 1), (1, 1, 2)]).armies 0 = some a →
      (a + -1 ≤ 0 →
        (Board.mk [(0, 0, 1), (1, 1, 2)]).add_armies 0 (-1) = none) ∧
      (0 < a + -1 → ∃ b',
        (Board.mk [(0, 0, 1), (1, 1, 2)]).add_armies 0 (-1) = some b' ∧
          b'.armies 0 = some (a + -1))) :=
  set_add_armies_contract (Board.mk [(0, 0, 1), (1, 1, 2)]) 0 (by decide) (-1)

/-- C8: for an in-range territory, `set_owner` succeeds for any player id,
stores that id as the owner, preserves the army count of that territory,
and leaves every other record and the board length unchanged. -/
theorem set_owner_frame (b : Board) (tid : Nat) (pid : Int)
    (h : tid < b.data.length) :
    ∃ b', b.set_owner tid pid = some b' ∧
      b'.owner tid = some pid ∧
      b'.armies tid = b.armies tid ∧
      b'.data.length = b.data.length ∧
      ∀ j : Nat, j ≠ tid → b'.data[j]? = b.data[j]? := by
  have hget : b.data[tid]? = some (b.data.get ⟨tid, h⟩) := by
    rw [List.getElem?_eq_getElem h]
    rfl
  refine ⟨_, set_owner_eq_some_iff.2 ⟨_, hget, rfl⟩, ?_, ?_, ?_, ?_⟩
  · unfold Board.owner
    rw [List.getElem?_set_self (by simpa using h)]
    rfl
  · unfold Board.armies
    rw [List.getElem?_set_self (by simpa using h), hget]
    rfl
  · simp
  · intro j hj
    show (b.data.set tid _)[j]? = b.data[j]?
    rw [List.getElem?_set_ne (Ne.symm hj)]

/-- Closed witness for `set_owner_frame` on a two-territory board. -/
theorem set_owner_frame_witness :
    ∃ b', (Board.mk [(0, 0, 3), (1, 1, 2)]).set_owner 1 5 = some b' ∧
      b'.owner 1 = some 5 ∧
      b'.armies 1 = (Board.mk [(0, 0, 3), (1, 1, 2)]).armies 1 ∧
      b'.data.length = (Board.mk [(0, 0, 3), (1, 1, 2)]).data.length ∧
      ∀ j : Nat, j ≠ 1 →
        b'.data[j]? = (Board.mk [(0, 0, 3), (1, 1, 2)]).data[j]? :=
  set_owner_frame (Board.mk [(0, 0, 3), (1, 1, 2)]) 1 5 (by decide)

/-! Helper lemmas about the two board invariants. -/

lemma selfIndexed_set {b : Board} {tid : Nat} {o a : Int}
    (hsi : b.selfIndexed) :
    (Board.mk (b.data.set tid (tid, o, a))).selfIndexed := by
  intro i
  have hi : i.val < b.data.length := by
    have := i.isLt
    simpa using this
  rw [List.get_eq_getElem, List.getElem_set]
  split
  · next heq => exact heq
  · exact hsi ⟨i.val, hi⟩

lemma selfIndexed_create (alloc : List Int) :
    (Board.create alloc).selfIndexed := by
  intro i
  have hi : i.val < alloc.length := by
    have := i.isLt
    simpa [create_length] using this
  have h2 := create_getElem? alloc i.val
  rw [List.getElem?_eq_getElem i.isLt, List.getElem?_eq_getElem hi] at h2
  simp only [Option.map_some', Option.some.injEq] at h2
  rw [List.get_eq_getElem, h2]

lemma selfIndexed_lookup {b : Board} (hsi : b.selfIndexed) {t : Territory}
    (ht : t ∈ b.data) : b.data[t.1]? = some t := by
  obtain ⟨i, hi, hget⟩ := List.mem_iff_getElem.1 ht
  have hfst : t.1 = i := by
    have := hsi ⟨i, hi⟩
    rw [List.get_eq_getElem, hget] at this
    exact this
  rw [hfst, List.getElem?_eq_getElem hi, hget]

lemma ownerD_of_mem {b : Board} (hsi : b.selfIndexed) {t : Territory}
    (ht : t ∈ b.data) : b.ownerD t.1 = t.2.1 := by
  unfold Board.ownerD
  rw [selfIndexed_lookup hsi ht]
  rfl

instance (b : Board) : Decidable b.selfIndexed :=
  inferInstanceAs (Decidable (∀ i : Fin b.data.length, (b.data.get i).1 = i))

instance (b : Board) : Decidable b.armiesPos :=
  inferInstanceAs (Decidable (∀ t ∈ b.data, 1 ≤ t.2.2))

/-- C10: the board indexes itself — `Board.create` puts the record with
territory id `i` at position `i`, every successful `set_owner`,
`set_armies` and `add_armies` call preserves that positional agreement,
and under it the point lookups `owner` and `armies` return exactly the
fields of the record carrying the queried id. -/
theorem self_indexing_invariant :
    (∀ alloc : List Int, (Board.create alloc).selfIndexed) ∧
    (∀ (b : Board) (tid : Nat) (pid : Int) (b' : Board),
      b.selfIndexed → b.set_owner tid pid = some b' → b'.selfIndexed) ∧
    (∀ (b : Board) (tid : Nat) (n : Int) (b' : Board),
      b.selfIndexed → b.set_armies tid n = some b' → b'.selfIndexed) ∧
    (∀ (b : Board) (tid : Nat) (n : Int) (b' : Board),
      b.selfIndexed → b.add_armies tid n = some b' → b'.selfIndexed) ∧
    (∀ b : Board, b.selfIndexed → ∀ t ∈ b.data,
      b.owner t.1 = some t.2.1 ∧ b.armies t.1 = some t.2.2) := by
  refine ⟨selfIndexed_create, ?_, ?_, ?_, ?_⟩
  · intro b tid pid b' hsi hs
    obtain ⟨t, _, rfl⟩ := set_owner_eq_some_iff.1 hs
    exact selfIndexed_set hsi
  · intro b tid n b' hsi hs
    obtain ⟨_, t, _, rfl⟩ := set_armies_eq_some_iff.1 hs
    exact selfIndexed_set hsi
  · intro b tid n b' hsi hs
    obtain ⟨t, _, _, rfl⟩ := add_armies_eq_some_iff.1 hs
    exact selfIndexed_set hsi
  · intro b hsi t ht
    constructor
    · unfold Board.owner
      rw [selfIndexed_lookup hsi ht]
      rfl
    · unfold Board.armies
      rw [selfIndexed_lookup hsi ht]
      rfl

/-- Closed witness for `self_indexing_invariant`: preservation through a
concrete successful `set_armies` call. -/
theorem self_indexing_invariant_witness :
    (Board.mk [(0, 0, 5), (1, 1, 2)]).selfIndexed :=
  self_indexing_invariant.2.2.1 (Board.mk [(0, 0, 1), (1, 1, 2)]) 0 5
    (Board.mk [(0, 0, 5), (1, 1, 2)]) (by decide) (by decide)

/-- C4: army positivity is an invariant — every record of a freshly created
board has one army, and any board in which every record has at least one
army keeps that property across every successful `set_owner`, `set_armies`
and `add_armies` call. -/
theorem army_positivity_invariant :
    (∀ alloc : List Int, (Board.create alloc).armiesPos) ∧
    (∀ (b : Board) (tid : Nat) (pid : Int) (b' : Board),
      b.armiesPos → b.set_owner tid pid = some b' → b'.armiesPos) ∧
    (∀ (b : Board) (tid : Nat) (n : Int) (b' : Board),
      b.armiesPos → b.set_armies tid n = some b' → b'.armiesPos) ∧
    (∀ (b : Board) (tid : Nat) (n : Int) (b' : Board),
      b.armiesPos → b.add_armies tid n = some b' → b'.armiesPos) := by
  refine ⟨?_, ?_, ?_, ?_⟩
  · intro alloc t ht
    simp only [Board.create, List.mem_map] at ht
    obtain ⟨p, _, rfl⟩ := ht
    exact le_refl 1
  · intro b tid pid b' hb hs
    obtain ⟨t, ht, rfl⟩ := set_owner_eq_some_iff.1 hs
    intro u hu
    rcases List.mem_or_eq_of_mem_set hu with hmem | rfl
    · exact hb u hmem
    · exact hb t (List.getElem?_mem ht)
  · intro b tid n b' hb hs
    obtain ⟨hpos, t, ht, rfl⟩ := set_armies_eq_some_iff.1 hs
    intro u hu
    rcases List.mem_or_eq_of_mem_set hu with hmem | rfl
    · exact hb u hmem
    · exact hpos
  · intro b tid n b' hb hs
    obtain ⟨t, ht, hpos, rfl⟩ := add_armies_eq_some_iff.1 hs
    intro u hu
    rcases List.mem_or_eq_of_mem_set hu with hmem | rfl
    · exact hb u hmem
    · exact hpos

/-- Closed witness for `army_positivity_invariant`: preservation through a
concrete successful `add_armies` call. -/
theorem army_positivity_invariant_witness :
    (Board.mk [(0, 0, 3), (1, 1, 2)]).armiesPos :=
  army_positivity_invariant.2.2.2 (Board.mk [(0, 0, 1), (1, 1, 2)]) 0 2
    (Board.mk [(0, 0, 3), (1, 1, 2)]) (by decide) (by decide)

/-! Helper lemmas for continent ownership. -/

lemma dedup_eq_singleton_iff {l : List Int} {p : Int} :
    l.dedup = [p] ↔ l ≠ [] ∧ ∀ x ∈ l, x = p := by
  constructor
  · intro h
    refine ⟨?_, ?_⟩
    · intro hnil
      rw [hnil] at h
      simp at h
    · intro x hx
      have hxd : x ∈ l.dedup := List.mem_dedup.2 hx
      rw [h] at hxd
      simpa using hxd
  · rintro ⟨hne, hall⟩
    obtain ⟨y, hy⟩ := List.exists_mem_of_ne_nil l hne
    have hpl : p ∈ l := by
      have hyp := hall y hy
      rwa [hyp] at hy
    have hpd : p ∈ l.dedup := List.mem_dedup.2 hpl
    have hnd : l.dedup.Nodup := l.nodup_dedup
    rcases hd : l.dedup with _ | ⟨a, t⟩
    · rw [hd] at hpd
      simp at hpd
    · have hmem : ∀ x ∈ a :: t, x = p := by
        intro x hx
        refine hall x (List.mem_dedup.1 ?_)
        rw [hd]
        exact hx
      have ha : a = p := hmem a (List.mem_cons_self a t)
      have ht : t = [] := by
        rcases t with _ | ⟨c, s⟩
        · rfl
        · exfalso
          have hc : c = p := hmem c (by simp)
          rw [hd, ha, hc] at hnd
          simp [List.nodup_cons] at hnd
      rw [ha, ht]

lemma continent_owner_eq_some_iff (defs : Definitions) (b : Board)
    (cid : Nat) (q : Int) :
    b.continent_owner defs cid = some q ↔
      ((b.continent defs cid).map (fun t => t.2.1)).dedup = [q] := by
  unfold Board.continent_owner
  generalize ((b.continent defs cid).map (fun t => t.2.1)).dedup = l
  match l with
  | [] => simp
  | [a] => simp
  | a :: c :: t => simp

lemma continent_ne_nil {defs : Definitions} {b : Board} {cid : Nat}
    (hne : defs.continent_territories cid ≠ [])
    (hsi : b.selfIndexed)
    (hcov : ∀ m ∈ defs.continent_territories cid, m < b.data.length) :
    b.continent defs cid ≠ [] := by
  obtain ⟨m, hm⟩ := List.exists_mem_of_ne_nil _ hne
  have hml := hcov m hm
  have hmem : b.data.get ⟨m, hml⟩ ∈ b.data := List.get_mem _ _ hml
  have hfst : (b.data.get ⟨m, hml⟩).1 = m := hsi ⟨m, hml⟩
  intro hnil
  have hin : b.data.get ⟨m, hml⟩ ∈ b.continent defs cid := by
    unfold Board.continent
    rw [List.mem_filter]
    exact ⟨hmem, by rw [hfst]; exact decide_eq_true hm⟩
  rw [hnil] at hin
  simp at hin

/-- C5: on a self-indexing board covering a continent whose static member
set is non-empty, `continent_owner` returns player `p` exactly when every
territory of the continent is owned by `p`, and returns the no-owner
sentinel `none` otherwise. -/
theorem continent_owner_spec (defs : Definitions) (b : Board) (cid : Nat)
    (hne : defs.continent_territories cid ≠ [])
    (hsi : b.selfIndexed)
    (hcov : ∀ m ∈ defs.continent_territories cid, m < b.data.length) :
    (∀ p : Int, b.continent_owner defs cid = some p ↔
      ∀ t ∈ b.continent defs cid, t.2.1 = p) ∧
    (b.continent_owner defs cid = none ↔
      ¬∃ p : Int, ∀ t ∈ b.continent defs cid, t.2.1 = p) := by
  have hcne : b.continent defs cid ≠ [] := continent_ne_nil hne hsi hcov
  have hmne : (b.continent defs cid).map (fun t => t.2.1) ≠ [] := by
    simpa using hcne
  have key : ∀ p : Int, b.continent_owner defs cid = some p ↔
      ∀ t ∈ b.continent defs cid, t.2.1 = p := by
    intro p
    rw [continent_owner_eq_some_iff, dedup_eq_singleton_iff]
    constructor
    · rintro ⟨-, hall⟩ t ht
      exact hall _ (List.mem_map_of_mem _ ht)
    · intro hall
      refine ⟨hmne, ?_⟩
      intro x hx
      obtain ⟨t, ht, rfl⟩ := List.mem_map.1 hx
      exact hall t ht
  refine ⟨key, ?_⟩
  constructor
  · intro hnone
    rintro ⟨p, hp⟩
    rw [← key p, hnone] at hp
    cases hp
  · intro hn
    rcases hco : b.continent_owner defs cid with _ | p
    · rfl
    · exact absurd ⟨p, (key p).1 hco⟩ hn

/-- Static map and board for the `continent_owner_spec` witness: one
continent with members 0 and 1, both owned by player 7. -/
def defsC5 : Definitions := ⟨fun _ => [], fun _ => [0, 1], []⟩

def boardC5 : Board := ⟨[(0, 7, 1), (1, 7, 2)]⟩

/-- Closed witness for `continent_owner_spec` on a two-territory map. -/
theorem continent_owner_spec_witness :
    (∀ p : Int, boardC5.continent_owner defsC5 0 = some p ↔
      ∀ t ∈ boardC5.continent defsC5 0, t.2.1 = p) ∧
    (boardC5.continent_owner defsC5 0 = none ↔
      ¬∃ p : Int, ∀ t ∈ boardC5.continent defsC5 0, t.2.1 = p) :=
  continent_owner_spec defsC5 boardC5 0 (by decide) (by decide) (by decide)

/-- C6: on a self-indexing board, `possible_attacks(player_id)` contains a
tuple `(fr, fa, to, tp, ta)` exactly when `(fr, player_id, fa)` is a
territory of the player with more than one army and `(to, tp, ta)` is a
territory on the static neighbor list of `fr` whose owner differs from
`player_id`. -/
theorem possible_attacks_spec (defs : Definitions) (b : Board)
    (player_id : Int) (hsi : b.selfIndexed) :
    ∀ (fr : Nat) (fa : Int) (toid : Nat) (tp ta : Int),
      (fr, fa, toid, tp, ta) ∈ b.possible_attacks defs player_id ↔
        ((fr, player_id, fa) ∈ b.data ∧ 1 < fa ∧
          (toid, tp, ta) ∈ b.data ∧ tp ≠ player_id ∧
          toid ∈ defs.territory_neighbors fr) := by
  intro fr fa toid tp ta
  constructor
  · intro hmem
    unfold Board.possible_attacks at hmem
    rw [List.mem_flatMap] at hmem
    obtain ⟨f, hf, hx⟩ := hmem
    rw [List.mem_map] at hx
    obtain ⟨t, ht, htup⟩ := hx
    simp only [Board.offensive, List.mem_filter, Bool.and_eq_true, beq_iff_eq,
      decide_eq_true_eq] at hf
    obtain ⟨hfd, hfp, hfa⟩ := hf
    simp only [Board.hostile_neighbors, List.mem_filter,
      decide_eq_true_eq] at ht
    obtain ⟨htd, htp, htn⟩ := ht
    simp only [Prod.mk.injEq] at htup
    obtain ⟨rfl, rfl, rfl, rfl, rfl⟩ := htup
    rw [ownerD_of_mem hsi hfd, hfp] at htp
    refine ⟨?_, hfa, htd, htp, htn⟩
    rw [← hfp]
    exact hfd
  · rintro ⟨hfd, hfa, htd, htp, htn⟩
    unfold Board.possible_attacks
    rw [List.mem_flatMap]
    refine ⟨(fr, player_id, fa), ?_, ?_⟩
    · simp only [Board.offensive, List.mem_filter, Bool.and_eq_true,
        beq_iff_eq, decide_eq_true_eq]
      exact ⟨hfd, trivial, hfa⟩
    · rw [List.mem_map]
      refine ⟨(toid, tp, ta), ?_, rfl⟩
      simp only [Board.hostile_neighbors, List.mem_filter, decide_eq_true_eq]
      refine ⟨htd, ?_, htn⟩
      have hod := ownerD_of_mem hsi hfd
      rw [hod]
      exact htp

/-- Static map and board for the `possible_attacks_spec` witness: three
mutually adjacent territories owned by players 0, 1, 2, with 3, 1 and 2
armies respectively. -/
def defsC6 : Definitions :=
  ⟨fun tid => if tid = 0 then [1, 2] else if tid = 1 then [0, 2] else [0, 1],
    fun _ => [], []⟩

def boardC6 : Board := ⟨[(0, 0, 3), (1, 1, 1), (2, 2, 2)]⟩

/-- Closed witness for `possible_attacks_spec` at attack tuple
`(0, 3, 1, 1, 1)`. -/
theorem possible_attacks_spec_witness :
    (0, 3, 1, 1, 1) ∈ boardC6.possible_attacks defsC6 0 ↔
      ((0, (0 : Int), 3) ∈ boardC6.data ∧ (1 : Int) < 3 ∧
        (1, (1 : Int), (1 : Int)) ∈ boardC6.data ∧ (1 : Int) ≠ 0 ∧
        1 ∈ defsC6.territory_neighbors 0) :=
  possible_attacks_spec defsC6 boardC6 0 (by decide) 0 3 1 1 1

/-- Summing bonuses by a fold with a conditional accumulator equals the sum
of the bonuses selected by the condition. -/
lemma foldl_bonus_eq_filter_sum (p : Nat × Int → Prop) [DecidablePred p] :
    ∀ (l : List (Nat × Int)) (acc : Int),
      l.foldl (fun a cb => if p cb then a + cb.2 else a) acc =
        acc + ((l.filter (fun cb => decide (p cb))).map (fun cb => cb.2)).sum := by
  intro l
  induction l with
  | nil => intro acc; simp
  | cons hd tl ih =>
    intro acc
    by_cases hp : p hd
    · simp [hp, ih]
      ring
    · simp [hp, ih]

/-- Static maps and boards for the `reinforcements_spec` examples. -/
def defsC3e : Definitions := ⟨fun _ => [], fun _ => [], []⟩

def defsC3 : Definitions :=
  ⟨fun _ => [], fun cid => if cid = 0 then [0, 1, 2] else [], [(0, 5)]⟩

def boardC3a : Board := ⟨(List.range 5).map (fun i => (i, 0, 1))⟩

def boardC3b : Board := ⟨(List.range 12).map (fun i => (i, 0, 1))⟩

/-- C3: `reinforcements(player_id)` equals
`max(3, n_territories(player_id) / 3)` plus the sum of the bonuses of the
continents whose `continent_owner` is the player; in particular 5
territories and no continent give 3, 12 territories and no continent give
4, and 12 territories plus a fully-owned continent of bonus 5 give 9. -/
theorem reinforcements_spec :
    (∀ (defs : Definitions) (b : Board) (p : Int),
      b.reinforcements defs p =
        (max 3 (b.n_territories p / 3) : Nat) +
          ((defs.continent_bonuses.filter
            (fun cb => b.continent_owner defs cb.1 == some p)).map
            (fun cb => cb.2)).sum) ∧
    boardC3a.reinforcements defsC3e 0 = 3 ∧
    boardC3b.reinforcements defsC3e 0 = 4 ∧
    boardC3b.reinforcements defsC3 0 = 9 := by
  refine ⟨?_, by decide, by decide, by decide⟩
  intro defs b p
  simp only [Board.reinforcements]
  rw [foldl_bonus_eq_filter_sum (fun cb => b.continent_owner defs cb.1 = some p),
    zero_add]
  congr 2
  apply congrArg
  apply List.filter_congr
  intro x _
  simp only [beq_eq_decide]
  exact decide_eq_decide.2 Iff.rfl

/-- C9: constructing a Player succeeds exactly for pid in 0..5, for every
name value. -/
theorem player_create_iff_pid_in_range :
    ∀ (pid : Int) (name : String),
      (Player.create pid name).isSome ↔ (0 ≤ pid ∧ pid < 6) := by
  intro pid name
  unfold Player.create
  split <;> simp_all
